import Mathlib

/-!
Verification of the tomlq pattern parser and tree navigator.

The repository source under version control holds the CLI entry point
(`src/bin/tq.rs`); the core library function `tq::extract_pattern` (path
parser plus tree navigator) is called there but its source file is not
present, so the parser and navigator are modelled from the design
document (spec sections 3, 4.1, 4.2, 7).  The CLI's input-format
normalization (lines 63-74 of `src/bin/tq.rs`) is embedded directly from
the source.
-/

namespace Tq

/-- Modelled from the spec: Document Value (spec section 3) — a node is a
Table (ordered string-keyed mapping, insertion order preserved), an Array
(ordered sequence), or a Scalar (String, Integer, Float, Boolean,
Datetime — opaque to the navigator, never decomposed; the Float and
Datetime payloads are therefore carried as opaque text). -/
inductive Value where
  | table : List (String × Value) → Value
  | array : List Value → Value
  | str : String → Value
  | int : Int → Value
  | float : String → Value
  | boolean : Bool → Value
  | datetime : String → Value

/-- Modelled from the spec: the three-way classification of a node used by
`TypeMismatch` errors (Table / Array / Scalar, spec sections 3 and 8). -/
inductive Kind where
  | table
  | array
  | scalar
deriving DecidableEq, Repr

/-- Modelled from the spec: the kind of a value; every non-container is a
Scalar. -/
def Value.kind : Value → Kind
  | .table _ => .table
  | .array _ => .array
  | _ => .scalar

/-- Modelled from the spec: a navigation Step (spec section 3): field
access by key or zero-based index access.  Negative indices are out of
scope (spec sections 4.2 and 9), so the index is a natural number. -/
inductive Step where
  | field : String → Step
  | index : Nat → Step
deriving DecidableEq, Repr

/-- Modelled from the spec: the classification of pattern-syntax errors
(spec section 4.1): unterminated bracket, unterminated quote, non-numeric
index, empty identifier, plus an unexpected character after a completed
step and the explicit rejection of negative indices (spec section 9
requires failing clearly on them). -/
inductive ParseErrorKind where
  | unterminatedBracket
  | unterminatedQuote
  | nonNumericIndex
  | emptyIdentifier
  | unexpectedChar
  | negativeIndex
deriving DecidableEq, Repr

/-- Modelled from the spec: `ParseError{kind, byte_offset}` (spec section
4.1); the offset is relative to the trimmed pattern text. -/
structure ParseError where
  kind : ParseErrorKind
  offset : Nat
deriving DecidableEq, Repr

/-- Modelled from the spec: navigation failures (spec section 7), each
carrying the path of steps already successfully applied. -/
inductive NavError where
  | keyNotFound : String → List Step → NavError
  | indexOutOfBounds : Nat → Nat → List Step → NavError
  | typeMismatch : Kind → Kind → List Step → NavError
deriving DecidableEq, Repr

/-- The traversal path carried by a navigation error. -/
def NavError.path : NavError → List Step
  | .keyNotFound _ p => p
  | .indexOutOfBounds _ _ p => p
  | .typeMismatch _ _ p => p

/-- Modelled from the spec: a bare-key character (spec section 4.1 grammar:
one or more of letters, digits, underscore, hyphen). -/
def isBareChar (c : Char) : Bool :=
  c.isAlphanum || c == '_' || c == '-'

/-- Leading-whitespace removal. -/
def trimLeft (cs : List Char) : List Char :=
  cs.dropWhile Char.isWhitespace

/-- Trailing-whitespace removal. -/
def trimRight (cs : List Char) : List Char :=
  (cs.reverse.dropWhile Char.isWhitespace).reverse

/-- Modelled from the spec: trimming of leading and trailing whitespace
around the whole pattern (spec section 4.1). -/
def trimChars (cs : List Char) : List Char :=
  trimLeft (trimRight cs)

/-- State of the recursive-descent pattern scanner: at the start of a step,
inside a bare identifier, inside a quoted identifier (plain or just after a
backslash escape), after a completed step, just after an opening bracket,
or inside the digits of an index.  Quoted and bracket states remember the
offset of their opening delimiter for error reporting. -/
inductive PState where
  | stepStart
  | bare (buf : List Char)
  | quoted (start : Nat) (buf : List Char)
  | quotedEsc (start : Nat) (buf : List Char)
  | afterStep
  | bracketStart (start : Nat)
  | bracketDigits (start : Nat) (n : Nat)

/-- Modelled from the spec: the character-at-a-time pattern scanner
implementing the grammar of spec section 4.1.  `pos` is the offset of the
next character, `acc` the steps emitted so far in source order. -/
def run : List Char → Nat → PState → List Step → Except ParseError (List Step)
  | [], pos, st, acc =>
    match st with
    | .stepStart => .error ⟨.emptyIdentifier, pos⟩
    | .bare buf => .ok (acc ++ [.field ⟨buf⟩])
    | .quoted start _ => .error ⟨.unterminatedQuote, start⟩
    | .quotedEsc start _ => .error ⟨.unterminatedQuote, start⟩
    | .afterStep => .ok acc
    | .bracketStart start => .error ⟨.unterminatedBracket, start⟩
    | .bracketDigits start _ => .error ⟨.unterminatedBracket, start⟩
  | c :: cs, pos, st, acc =>
    match st with
    | .stepStart =>
      if c == '"' then run cs (pos + 1) (.quoted pos []) acc
      else if isBareChar c then run cs (pos + 1) (.bare [c]) acc
      else .error ⟨.emptyIdentifier, pos⟩
    | .bare buf =>
      if isBareChar c then run cs (pos + 1) (.bare (buf ++ [c])) acc
      else if c == '.' then run cs (pos + 1) .stepStart (acc ++ [.field ⟨buf⟩])
      else if c == '[' then run cs (pos + 1) (.bracketStart pos) (acc ++ [.field ⟨buf⟩])
      else .error ⟨.unexpectedChar, pos⟩
    | .quoted start buf =>
      if c == '"' then run cs (pos + 1) .afterStep (acc ++ [.field ⟨buf⟩])
      else if c == '\\' then run cs (pos + 1) (.quotedEsc start buf) acc
      else run cs (pos + 1) (.quoted start (buf ++ [c])) acc
    | .quotedEsc start buf => run cs (pos + 1) (.quoted start (buf ++ [c])) acc
    | .afterStep =>
      if c == '.' then run cs (pos + 1) .stepStart acc
      else if c == '[' then run cs (pos + 1) (.bracketStart pos) acc
      else .error ⟨.unexpectedChar, pos⟩
    | .bracketStart start =>
      if c.isDigit then run cs (pos + 1) (.bracketDigits start (c.toNat - 48)) acc
      else if c == '-' then .error ⟨.negativeIndex, pos⟩
      else .error ⟨.nonNumericIndex, pos⟩
    | .bracketDigits start n =>
      if c.isDigit then run cs (pos + 1) (.bracketDigits start (n * 10 + (c.toNat - 48))) acc
      else if c == ']' then run cs (pos + 1) .afterStep (acc ++ [.index n])
      else .error ⟨.nonNumericIndex, pos⟩

/-- Modelled from the spec: `parse(pattern_text) -> Result<Pattern,
ParseError>` (spec section 4.1).  The whole pattern is trimmed of
leading and trailing whitespace; an empty (trimmed) pattern parses to
zero steps. -/
def parse (s : String) : Except ParseError (List Step) :=
  if (trimChars s.data).isEmpty then .ok [] else run (trimChars s.data) 0 .stepStart []

/-- Modelled from the spec: ordered key lookup in a Table (first entry with
the given key; keys are unique by the Table invariant). -/
def lookupKey : List (String × Value) → String → Option Value
  | [], _ => none
  | (k, v) :: rest, name => if k = name then some v else lookupKey rest name

/-- Modelled from the spec: application of one step to the current value
(spec section 4.2).  A `Field` step requires a Table and looks up the key;
an `Index` step requires an Array and bounds-checks the position; `done`
is the path already traversed, recorded in any failure. -/
def stepApply : Value → Step → List Step → Except NavError Value
  | .table entries, .field name, done =>
    match lookupKey entries name with
    | some v => .ok v
    | none => .error (.keyNotFound name done)
  | cur, .field _, done => .error (.typeMismatch .table cur.kind done)
  | .array elems, .index i, done =>
    if h : i < elems.length then .ok (elems.get ⟨i, h⟩)
    else .error (.indexOutOfBounds i elems.length done)
  | cur, .index _, done => .error (.typeMismatch .array cur.kind done)

/-- Modelled from the spec: the navigation fold (spec section 4.2).
`done` accumulates the steps already successfully applied, in order, for
error reporting. -/
def extractGo : Value → List Step → List Step → Except NavError Value
  | cur, [], _ => .ok cur
  | cur, s :: rest, done =>
    match stepApply cur s done with
    | .ok v => extractGo v rest (done ++ [s])
    | .error e => .error e

/-- Modelled from the spec: `extract(root, pattern) -> Result<Value,
NavError>` (spec section 4.2): fold the steps over the document starting
at the root. -/
def extract (root : Value) (steps : List Step) : Except NavError Value :=
  extractGo root steps []

/-- Modelled from the spec: the combined error type of the single exposed
operation (spec section 6). -/
inductive Error where
  | parseFailure : ParseError → Error
  | navFailure : NavError → Error
deriving DecidableEq, Repr

/-- Modelled from the spec: `extract_pattern(document, pattern_text)`
(spec section 6): parse the pattern, then navigate the document. -/
def extract_pattern (doc : Value) (patternText : String) : Except Error Value :=
  match parse patternText with
  | .error e => .error (.parseFailure e)
  | .ok steps =>
    match extract doc steps with
    | .error e => .error (.navFailure e)
    | .ok v => .ok v

/-! ### Decimal digits -/

/-- The decimal digit character for a value below ten. -/
def decDigitChar : Nat → Char
  | 0 => '0'
  | 1 => '1'
  | 2 => '2'
  | 3 => '3'
  | 4 => '4'
  | 5 => '5'
  | 6 => '6'
  | 7 => '7'
  | 8 => '8'
  | _ => '9'

/-- The decimal digit characters of a natural number, most significant
first. -/
def digitsOf (n : Nat) : List Char :=
  if _h : n < 10 then [decDigitChar n]
  else digitsOf (n / 10) ++ [decDigitChar (n % 10)]
decreasing_by exact Nat.div_lt_self (by omega) (by omega)

/-- The accumulation step the scanner performs on one digit character. -/
def digitStep (a : Nat) (c : Char) : Nat := a * 10 + (c.toNat - 48)

/-! ### Rendering a step list back to pattern text -/

/-- A bare identifier: nonempty, made only of bare-key characters. -/
def validBareName (s : String) : Bool :=
  !s.data.isEmpty && s.data.all isBareChar

/-- A step whose field name (if any) is a bare identifier. -/
def stepOk : Step → Bool
  | .field n => validBareName n
  | .index _ => true

/-- Every step of the list has a bare field name where applicable. -/
def stepsWellFormed (steps : List Step) : Bool :=
  steps.all stepOk

/-- The source text of one bracketed index. -/
def renderIndex (i : Nat) : List Char :=
  '[' :: (digitsOf i ++ [']'])

/-- The source text of the steps after the first: a field is preceded by a
dot, an index keeps its brackets. -/
def renderRest : List Step → List Char
  | [] => []
  | .field n :: rest => '.' :: (n.data ++ renderRest rest)
  | .index i :: rest => renderIndex i ++ renderRest rest

/-- The source text of a whole step list (the leading field carries no
dot). -/
def renderPattern : List Step → List Char
  | [] => []
  | .field n :: rest => n.data ++ renderRest rest
  | .index i :: rest => renderIndex i ++ renderRest rest

/-- The document `{"a": [10, 20, 30]}` of the spec's array-indexing test. -/
def docArr : Value := .table [("a", .array [.int 10, .int 20, .int 30])]

/-- The document `{"a": {}}` of the spec's missing-key test. -/
def docEmptyTable : Value := .table [("a", .table [])]

/-- The document `{"a": 5}` of the spec's type-mismatch test. -/
def docScalar : Value := .table [("a", .int 5)]

/-! ### Input-format normalization of the CLI (embedded from
`src/bin/tq.rs`) -/

/-- The input/output formats accepted by the CLI (`enum Format`,
`src/bin/tq.rs` lines 33-40, with the `json` cargo feature enabled). -/
inductive Format where
  | toml
  | json

/-- The input-string normalization of `main` (`src/bin/tq.rs` lines
63-73): under TOML input the string is kept; under JSON input it is
parsed as JSON and re-serialized to TOML text when that parse succeeds,
and kept unchanged otherwise.  The external serde-json parse (its `Ok`
case, matched by `if let Ok(..)`) and the fallible TOML serialization
(`toml::to_string(..)?`) are passed in as functions. -/
def selectInput {V E : Type} (jsonParse : String → Option V)
    (tomlToString : V → Except E String) : Format → String → Except E String
  | .toml, s => .ok s
  | .json, s =>
    match jsonParse s with
    | some v => tomlToString v
    | none => .ok s

/-- `main` continues (`src/bin/tq.rs` line 74) by handing the selected
string to the TOML parser `toml::from_str`, again passed in as a
function. -/
def loadDocument {V E : Type} (jsonParse : String → Option V)
    (tomlToString : V → Except E String) (tomlFromStr : String → Except E Value)
    (fmt : Format) (s : String) : Except E Value :=
  match selectInput jsonParse tomlToString fmt s with
  | .error e => .error e
  | .ok t => tomlFromStr t

/-! ### Whitespace-trimming lemmas -/

theorem trimRight_append_ws {c : Char} (hc : c.isWhitespace = true) (l : List Char) :
    trimRight (l ++ [c]) = trimRight l := by
  simp [trimRight, List.dropWhile_cons, hc]

theorem trimChars_append_ws {c : Char} (hc : c.isWhitespace = true) (l : List Char) :
    trimChars (l ++ [c]) = trimChars l := by
  simp [trimChars, trimRight_append_ws hc]

theorem trimChars_cons_ws {c : Char} (hc : c.isWhitespace = true) (l : List Char) :
    trimChars (c :: l) = trimChars l := by
  unfold trimChars trimRight
  rw [show (c :: l).reverse = l.reverse ++ [c] from by simp]
  rw [List.dropWhile_append]
  split
  case isTrue h =>
    rw [List.isEmpty_iff] at h
    simp [h, List.dropWhile_cons, hc]
  case isFalse h =>
    rw [List.isEmpty_iff] at h
    simp [trimLeft, List.dropWhile_cons, hc]

theorem isDigit_decDigitChar {d : Nat} (h : d < 10) :
    (decDigitChar d).isDigit = true := by
  interval_cases d <;> decide

theorem digitStep_decDigitChar (a : Nat) {d : Nat} (h : d < 10) :
    digitStep a (decDigitChar d) = a * 10 + d := by
  interval_cases d <;> simp [digitStep, decDigitChar, Char.toNat] <;> decide

theorem digitsOf_ne_nil (n : Nat) : digitsOf n ≠ [] := by
  unfold digitsOf
  split <;> simp

theorem digitsOf_all_digit (n : Nat) : ∀ c ∈ digitsOf n, c.isDigit = true := by
  induction n using Nat.strong_induction_on with
  | _ n ih =>
    unfold digitsOf
    split
    case isTrue h =>
      intro c hc
      rw [List.mem_singleton] at hc
      exact hc ▸ isDigit_decDigitChar h
    case isFalse h =>
      intro c hc
      rcases List.mem_append.mp hc with h1 | h2
      · exact ih (n / 10) (Nat.div_lt_self (by omega) (by omega)) c h1
      · rw [List.mem_singleton] at h2
        exact h2 ▸ isDigit_decDigitChar (Nat.mod_lt _ (by omega))

theorem foldl_digitsOf (n : Nat) : (digitsOf n).foldl digitStep 0 = n := by
  induction n using Nat.strong_induction_on with
  | _ n ih =>
    unfold digitsOf
    split
    case isTrue h =>
      simp [digitStep_decDigitChar 0 h]
    case isFalse h =>
      rw [List.foldl_append, ih (n / 10) (Nat.div_lt_self (by omega) (by omega))]
      simp [digitStep_decDigitChar (n / 10) (Nat.mod_lt _ (by omega))]
      omega

/-! ### Scanner-step lemmas -/

theorem isBareChar_dot : isBareChar '.' = false := rfl

theorem isBareChar_lbracket : isBareChar '[' = false := rfl

theorem isBareChar_quote : isBareChar '"' = false := rfl

theorem run_bare (l : List Char) (hl : ∀ c ∈ l, isBareChar c = true) (rest : List Char)
    (pos : Nat) (buf : List Char) (acc : List Step) :
    run (l ++ rest) pos (.bare buf) acc =
      run rest (pos + l.length) (.bare (buf ++ l)) acc := by
  induction l generalizing pos buf with
  | nil => simp
  | cons c cs ih =>
    have hc : isBareChar c = true := hl c (by simp)
    have htail : ∀ c ∈ cs, isBareChar c = true := fun x hx => hl x (by simp [hx])
    show run (c :: (cs ++ rest)) pos (.bare buf) acc = _
    rw [run]
    simp only [hc, if_true]
    rw [ih htail (pos + 1) (buf ++ [c])]
    simp [Nat.add_assoc, Nat.add_comm 1]

theorem run_digits (l : List Char) (hl : ∀ c ∈ l, c.isDigit = true) (rest : List Char)
    (pos sp n : Nat) (acc : List Step) :
    run (l ++ rest) pos (.bracketDigits sp n) acc =
      run rest (pos + l.length) (.bracketDigits sp (l.foldl digitStep n)) acc := by
  induction l generalizing pos n with
  | nil => simp
  | cons c cs ih =>
    have hc : c.isDigit = true := hl c (by simp)
    have htail : ∀ c ∈ cs, c.isDigit = true := fun x hx => hl x (by simp [hx])
    show run (c :: (cs ++ rest)) pos (.bracketDigits sp n) acc = _
    rw [run]
    simp only [hc, if_true]
    rw [show (n * 10 + (c.toNat - 48)) = digitStep n c from rfl,
      ih htail (pos + 1) (digitStep n c)]
    simp [Nat.add_assoc, Nat.add_comm 1]

theorem run_bare_to_afterStep (r : List Char) (pos : Nat) (buf : List Char) (acc : List Step)
    (hr : r = [] ∨ (∃ t, r = '.' :: t) ∨ (∃ t, r = '[' :: t)) :
    run r pos (.bare buf) acc = run r pos .afterStep (acc ++ [.field ⟨buf⟩]) := by
  rcases hr with rfl | ⟨t, rfl⟩ | ⟨t, rfl⟩
  · rfl
  · rw [run, run]
    simp [isBareChar_dot]
  · rw [run, run]
    simp [isBareChar_lbracket]

theorem run_stepStart_name (l : List Char) (hne : l ≠ []) (hb : ∀ c ∈ l, isBareChar c = true)
    (rest : List Char) (pos : Nat) (acc : List Step) :
    run (l ++ rest) pos .stepStart acc = run rest (pos + l.length) (.bare l) acc := by
  cases l with
  | nil => exact absurd rfl hne
  | cons c cs =>
    have hc : isBareChar c = true := hb c (by simp)
    have hq : (c == '"') = false := by
      rcases eq_or_ne c '"' with rfl | hne2
      · exact absurd hc (by decide)
      · exact beq_eq_false_iff_ne.mpr hne2
    show run (c :: (cs ++ rest)) pos .stepStart acc = _
    rw [run]
    simp only [hq, hc, if_true, Bool.false_eq_true, if_false]
    rw [run_bare cs (fun x hx => hb x (by simp [hx])) rest (pos + 1) [c]]
    simp [Nat.add_assoc, Nat.add_comm 1]

theorem renderRest_shape (steps : List Step) :
    renderRest steps = [] ∨ (∃ t, renderRest steps = '.' :: t) ∨
      (∃ t, renderRest steps = '[' :: t) := by
  match steps with
  | [] => exact Or.inl rfl
  | .field n :: rest => exact Or.inr (Or.inl ⟨n.data ++ renderRest rest, rfl⟩)
  | .index i :: rest =>
    exact Or.inr (Or.inr ⟨digitsOf i ++ [']'] ++ renderRest rest, by simp [renderRest, renderIndex]⟩)

theorem validBareName_data {n : String} (h : validBareName n = true) :
    n.data ≠ [] ∧ ∀ c ∈ n.data, isBareChar c = true := by
  unfold validBareName at h
  rw [Bool.and_eq_true, Bool.not_eq_true', List.isEmpty_eq_false, List.all_eq_true] at h
  exact ⟨h.1, fun c hc => h.2 c hc⟩

theorem run_renderRest (steps : List Step) (hw : stepsWellFormed steps = true)
    (pos : Nat) (acc : List Step) :
    run (renderRest steps) pos .afterStep acc = .ok (acc ++ steps) := by
  induction steps generalizing pos acc with
  | nil => simp [renderRest, run]
  | cons s rest ih =>
    have hs : stepOk s = true := by
      rw [stepsWellFormed, List.all_eq_true] at hw
      exact hw s (by simp)
    have hrest : stepsWellFormed rest = true := by
      rw [stepsWellFormed, List.all_eq_true] at hw ⊢
      exact fun x hx => hw x (by simp [hx])
    cases s with
    | field n =>
      obtain ⟨hne, hb⟩ := validBareName_data (by simpa [stepOk] using hs)
      show run ('.' :: (n.data ++ renderRest rest)) pos .afterStep acc = _
      rw [run]
      simp only [beq_self_eq_true, if_true]
      rw [run_stepStart_name n.data hne hb (renderRest rest) (pos + 1) acc]
      rw [run_bare_to_afterStep (renderRest rest) _ n.data acc (renderRest_shape rest)]
      rw [ih hrest]
      simp
    | index i =>
      show run ('[' :: (digitsOf i ++ [']']) ++ renderRest rest) pos .afterStep acc = _
      have hsplit : ('[' :: (digitsOf i ++ [']'])) ++ renderRest rest =
          '[' :: (digitsOf i ++ ([']'] ++ renderRest rest)) := by simp
      rw [hsplit, run]
      simp only [show ('[' == '.') = false from rfl, Bool.false_eq_true, if_false,
        beq_self_eq_true, if_true]
      obtain ⟨d, ds, hd⟩ : ∃ d ds, digitsOf i = d :: ds := by
        cases h : digitsOf i with
        | nil => exact absurd h (digitsOf_ne_nil i)
        | cons d ds => exact ⟨d, ds, rfl⟩
      have hdig := digitsOf_all_digit i
      rw [hd] at hdig ⊢
      show run (d :: (ds ++ ([']'] ++ renderRest rest))) (pos + 1) (.bracketStart pos) acc = _
      rw [run]
      simp only [hdig d (by simp), if_true]
      rw [show (d.toNat - 48) = digitStep 0 d from by simp [digitStep],
        run_digits ds (fun x hx => hdig x (by simp [hx])) _ _ _ _ acc]
      have hval : ds.foldl digitStep (digitStep 0 d) = i := by
        have h0 := foldl_digitsOf i
        rw [hd] at h0
        simpa using h0
      rw [hval, show ([']'] ++ renderRest rest) = (']' :: renderRest rest) from rfl, run]
      simp only [show (']'.isDigit) = false from rfl, Bool.false_eq_true, if_false,
        beq_self_eq_true, if_true]
      rw [ih hrest]
      simp

/-! ### Rendered patterns carry no whitespace, so trimming is the identity -/

theorem ws_char_cases {c : Char} (h : c.isWhitespace = true) :
    c = ' ' ∨ c = '\t' ∨ c = '\r' ∨ c = '\n' := by
  have h2 := h
  simp only [Char.isWhitespace, Bool.or_eq_true, decide_eq_true_eq] at h2
  tauto

theorem not_ws_of_bare {c : Char} (h : isBareChar c = true) : c.isWhitespace = false := by
  cases hw : c.isWhitespace
  · rfl
  · rcases ws_char_cases hw with rfl | rfl | rfl | rfl <;> exact absurd h (by decide)

theorem not_ws_of_digit {c : Char} (h : c.isDigit = true) : c.isWhitespace = false := by
  cases hw : c.isWhitespace
  · rfl
  · rcases ws_char_cases hw with rfl | rfl | rfl | rfl <;> exact absurd h (by decide)

theorem trimLeft_eq_self {l : List Char} (h : ∀ c ∈ l, c.isWhitespace = false) :
    trimLeft l = l := by
  cases l with
  | nil => rfl
  | cons c cs => simp [trimLeft, List.dropWhile_cons, h c (by simp)]

theorem trimRight_eq_self {l : List Char} (h : ∀ c ∈ l, c.isWhitespace = false) :
    trimRight l = l := by
  unfold trimRight
  cases hr : l.reverse with
  | nil =>
    have : l = [] := by simpa using congrArg List.reverse hr
    simp [this]
  | cons c cs =>
    have hc : c.isWhitespace = false := by
      refine h c ?_
      have : c ∈ l.reverse := by rw [hr]; simp
      simpa using this
    rw [List.dropWhile_cons, hc]
    simp only [Bool.false_eq_true, if_false]
    rw [← hr, List.reverse_reverse]

theorem trimChars_eq_self {l : List Char} (h : ∀ c ∈ l, c.isWhitespace = false) :
    trimChars l = l := by
  unfold trimChars
  rw [trimRight_eq_self h, trimLeft_eq_self h]

theorem stepsWellFormed_cons {s : Step} {rest : List Step} :
    stepsWellFormed (s :: rest) = true ↔ (stepOk s = true ∧ stepsWellFormed rest = true) := by
  simp [stepsWellFormed]

theorem renderRest_no_ws (steps : List Step) (hw : stepsWellFormed steps = true) :
    ∀ c ∈ renderRest steps, c.isWhitespace = false := by
  induction steps with
  | nil => simp [renderRest]
  | cons s rest ih =>
    obtain ⟨hs, hrest⟩ := stepsWellFormed_cons.mp hw
    cases s with
    | field n =>
      intro c hc
      rw [show renderRest (.field n :: rest) = '.' :: (n.data ++ renderRest rest) from rfl] at hc
      rcases List.mem_cons.mp hc with rfl | hc2
      · rfl
      · rcases List.mem_append.mp hc2 with h1 | h2
        · exact not_ws_of_bare ((validBareName_data (by simpa [stepOk] using hs)).2 c h1)
        · exact ih hrest c h2
    | index i =>
      intro c hc
      rw [show renderRest (.index i :: rest) = ('[' :: (digitsOf i ++ [']'])) ++ renderRest rest
        from rfl] at hc
      rcases List.mem_append.mp hc with h1 | h2
      · rcases List.mem_cons.mp h1 with rfl | h3
        · rfl
        · rcases List.mem_append.mp h3 with h4 | h5
          · exact not_ws_of_digit (digitsOf_all_digit i c h4)
          · rw [List.mem_singleton] at h5
            subst h5
            rfl
      · exact ih hrest c h2

/-- C1: the empty pattern string parses to zero steps, and extracting it
from any document root returns the root itself unchanged. -/
theorem c1_empty_pattern_identity :
    parse "" = .ok [] ∧ ∀ root : Value, extract_pattern root "" = .ok root :=
  ⟨rfl, fun _ => rfl⟩

/-- C2: the parser maps an identifier followed by bracketed indices to a
`Field` step followed by one `Index` step per bracket, in left-to-right
source order: concretely `parse "tbl[0][1]"` yields
`[Field "tbl", Index 0, Index 1]`, and in general parsing the rendered
source text of any well-formed step sequence returns exactly that
sequence, with no reordering. -/
theorem c2_step_order :
    parse "tbl[0][1]" = .ok [.field "tbl", .index 0, .index 1] ∧
    ∀ (n : String) (rest : List Step), validBareName n = true →
      stepsWellFormed rest = true →
      parse ⟨renderPattern (.field n :: rest)⟩ = .ok (.field n :: rest) := by
  refine ⟨rfl, ?_⟩
  intro n rest hn hrest
  obtain ⟨hne, hb⟩ := validBareName_data hn
  have hnows : ∀ c ∈ n.data ++ renderRest rest, c.isWhitespace = false := by
    intro c hc
    rcases List.mem_append.mp hc with h1 | h2
    · exact not_ws_of_bare (hb c h1)
    · exact renderRest_no_ws rest hrest c h2
  show parse ⟨n.data ++ renderRest rest⟩ = _
  unfold parse
  rw [show (String.mk (n.data ++ renderRest rest)).data = n.data ++ renderRest rest from rfl]
  rw [trimChars_eq_self hnows]
  have hempty : (n.data ++ renderRest rest).isEmpty = false := by
    rw [List.isEmpty_eq_false]
    intro hcontra
    exact hne (List.append_eq_nil.mp hcontra).1
  rw [hempty]
  simp only [Bool.false_eq_true, if_false]
  rw [run_stepStart_name n.data hne hb _ 0 []]
  rw [run_bare_to_afterStep _ _ _ _ (renderRest_shape rest)]
  rw [run_renderRest rest hrest]
  simp

/-- Closed instance of the general clause of the C2 theorem: the pattern
text rendered from `[Field "x", Index 12, Field "y"]` (that is,
`x[12].y`) parses back to exactly that step sequence. -/
theorem c2_step_order_witness :
    validBareName "x" = true ∧ stepsWellFormed [Step.index 12, Step.field "y"] = true ∧
    parse ⟨renderPattern (.field "x" :: [Step.index 12, Step.field "y"])⟩ =
      .ok [Step.field "x", Step.index 12, Step.field "y"] :=
  ⟨by decide, by decide,
    c2_step_order.2 "x" [Step.index 12, Step.field "y"] (by decide) (by decide)⟩

/-- C3: on `{"a": [10, 20, 30]}` the pattern `a[1]` extracts the scalar
`20` and the pattern `a[3]` fails with `IndexOutOfBounds{index:3,
length:3}`; in general an `Index i` step on an array of length `n`
succeeds with the `i`-th element exactly when `i < n` and otherwise fails
with `IndexOutOfBounds{index: i, length: n}`. -/
theorem c3_array_indexing :
    extract_pattern docArr "a[1]" = .ok (.int 20) ∧
    extract_pattern docArr "a[3]" =
      .error (.navFailure (.indexOutOfBounds 3 3 [.field "a"])) ∧
    (∀ (elems : List Value) (i : Nat) (h : i < elems.length),
      extract (.array elems) [.index i] = .ok (elems.get ⟨i, h⟩)) ∧
    ∀ (elems : List Value) (i : Nat), elems.length ≤ i →
      extract (.array elems) [.index i] =
        .error (.indexOutOfBounds i elems.length []) := by
  refine ⟨rfl, rfl, ?_, ?_⟩
  · intro elems i h
    simp only [extract, extractGo, stepApply]
    rw [dif_pos h]
  · intro elems i h
    simp only [extract, extractGo, stepApply]
    rw [dif_neg (by omega)]

/-- Closed instance of the general clauses of the C3 theorem: index `0`
on a one-element array succeeds with that element, and index `0` on an
empty array fails out of bounds. -/
theorem c3_array_indexing_witness :
    (0 : Nat) < [Value.int 7].length ∧ [Value.int 7].length ≤ 1 ∧
    extract (.array [.int 7]) [.index 0] = .ok (.int 7) ∧
    extract (.array [.int 7]) [.index 1] =
      .error (.indexOutOfBounds 1 1 []) :=
  ⟨by decide, by decide, c3_array_indexing.2.2.1 [.int 7] 0 (by decide),
    c3_array_indexing.2.2.2 [.int 7] 1 (by decide)⟩

/-- C4: a `Field name` step on a table without that key fails with
`KeyNotFound` carrying the name and the steps already applied; concretely
on `{"a": {}}` the pattern `a.b` fails with `KeyNotFound{name:"b"}` and
reported path `[Field "a"]`. -/
theorem c4_missing_key :
    extract_pattern docEmptyTable "a.b" =
      .error (.navFailure (.keyNotFound "b" [.field "a"])) ∧
    ∀ (entries : List (String × Value)) (name : String),
      lookupKey entries name = none →
      extract (.table entries) [.field name] = .error (.keyNotFound name []) := by
  refine ⟨rfl, ?_⟩
  intro entries name h
  simp only [extract, extractGo, stepApply, h]

/-- Closed instance of the general clause of the C4 theorem: looking up
`b` in the empty table fails with `KeyNotFound`. -/
theorem c4_missing_key_witness :
    lookupKey [] "b" = none ∧
    extract (.table []) [.field "b"] = .error (.keyNotFound "b" []) :=
  ⟨rfl, c4_missing_key.2 [] "b" rfl⟩

/-- C5: a step that expects a table (resp. array) applied to a value of a
different kind fails with `TypeMismatch` recording the expected and found
kinds; concretely on `{"a": 5}` the pattern `a.b` fails with
`TypeMismatch{expected: Table, found: Scalar}`. -/
theorem c5_type_mismatch :
    extract_pattern docScalar "a.b" =
      .error (.navFailure (.typeMismatch .table .scalar [.field "a"])) ∧
    (∀ (cur : Value) (name : String), cur.kind ≠ .table →
      extract cur [.field name] = .error (.typeMismatch .table cur.kind [])) ∧
    ∀ (cur : Value) (i : Nat), cur.kind ≠ .array →
      extract cur [.index i] = .error (.typeMismatch .array cur.kind []) := by
  refine ⟨rfl, ?_, ?_⟩
  · intro cur name h
    cases cur <;> first | exact absurd rfl h | rfl
  · intro cur i h
    cases cur <;> first | exact absurd rfl h | rfl

/-- Closed instance of the general clauses of the C5 theorem: a field
step on an integer scalar and an index step on a boolean scalar both
fail with `TypeMismatch`. -/
theorem c5_type_mismatch_witness :
    Value.kind (.int 5) ≠ .table ∧ Value.kind (.boolean true) ≠ .array ∧
    extract (.int 5) [.field "b"] = .error (.typeMismatch .table .scalar []) ∧
    extract (.boolean true) [.index 0] = .error (.typeMismatch .array .scalar []) :=
  ⟨by decide, by decide, c5_type_mismatch.2.1 (.int 5) "b" (by decide),
    c5_type_mismatch.2.2 (.boolean true) 0 (by decide)⟩

/-- C6: malformed patterns fail with a `ParseError` carrying the
offending offset: an unterminated bracket (`a[`), an unterminated quote,
a non-numeric index and an empty identifier between dots are each
rejected; and parsing always terminates with either an error or a step
list (it is a total function, so it neither panics nor hangs nor
silently recovers). -/
theorem c6_malformed_rejection :
    parse "a[" = .error ⟨.unterminatedBracket, 1⟩ ∧
    parse "\"ab" = .error ⟨.unterminatedQuote, 0⟩ ∧
    parse "a[x]" = .error ⟨.nonNumericIndex, 2⟩ ∧
    parse "a..b" = .error ⟨.emptyIdentifier, 2⟩ ∧
    ∀ s : String, (∃ e, parse s = .error e) ∨ ∃ steps, parse s = .ok steps := by
  refine ⟨rfl, rfl, rfl, rfl, ?_⟩
  intro s
  cases h : parse s with
  | error e => exact Or.inl ⟨e, rfl⟩
  | ok steps => exact Or.inr ⟨steps, rfl⟩

/-- C8: leading and trailing whitespace around the whole pattern is
trimmed before parsing, while whitespace inside a (quoted) identifier is
kept verbatim in the resulting field name. -/
theorem c8_whitespace_trimming :
    (∀ p : String, parse (" " ++ p ++ " ") = parse p) ∧
    parse "\"a b\"" = .ok [.field "a b"] := by
  refine ⟨?_, rfl⟩
  intro p
  unfold parse
  have h : trimChars ((" " ++ p ++ " ").data) = trimChars p.data := by
    show trimChars ((' ' :: p.data) ++ [' ']) = trimChars p.data
    rw [trimChars_append_ws (by decide)]
    exact trimChars_cons_ws (by decide) p.data
  rw [h]

/-- C9: extraction is deterministic — in this purely functional model the
result of `extract_pattern` depends only on the document and the pattern
text, so two invocations on equal inputs give equal results. -/
theorem c9_determinism :
    ∀ (d1 d2 : Value) (p1 p2 : String), d1 = d2 → p1 = p2 →
      extract_pattern d1 p1 = extract_pattern d2 p2 := by
  intro d1 d2 p1 p2 h1 h2
  rw [h1, h2]

/-- Closed instance of the C9 theorem at a concrete document and
pattern. -/
theorem c9_determinism_witness :
    extract_pattern (.int 3) "" = extract_pattern (.int 3) "" :=
  c9_determinism (.int 3) (.int 3) "" "" rfl rfl

/-! ### Path-prefix correctness of navigation errors -/

theorem stepApply_error_path {cur : Value} {s : Step} {done : List Step} {e : NavError}
    (h : stepApply cur s done = .error e) : e.path = done := by
  cases s <;> cases cur <;> simp only [stepApply] at h <;>
    (try split at h) <;> (first | exact Except.noConfusion h | injection h with h2) <;>
    subst h2 <;> rfl

theorem headFail_aux (cur : Value) (s : Step) (rest done : List Step) (e : NavError)
    (hpath : e.path = done) (hfail : extractGo cur [s] done = .error e) :
    ∃ k, ∃ h : k < (s :: rest).length, ∃ v,
      e.path = done ++ (s :: rest).take k ∧
      extractGo cur ((s :: rest).take k) done = .ok v ∧
      extractGo v [(s :: rest).get ⟨k, h⟩] (done ++ (s :: rest).take k) = .error e :=
  ⟨0, Nat.succ_pos _, cur, by simp [hpath], rfl, by simpa using hfail⟩

theorem extractGo_error_path (steps : List Step) :
    ∀ (cur : Value) (done : List Step) (e : NavError),
      extractGo cur steps done = .error e →
      ∃ k, ∃ h : k < steps.length, ∃ v,
        e.path = done ++ steps.take k ∧
        extractGo cur (steps.take k) done = .ok v ∧
        extractGo v [steps.get ⟨k, h⟩] (done ++ steps.take k) = .error e := by
  induction steps with
  | nil =>
    intro cur done e h
    simp [extractGo] at h
  | cons s rest ih =>
    intro cur done e h
    cases hsa : stepApply cur s done with
    | error e2 =>
      have he : e = e2 := by
        rw [show extractGo cur (s :: rest) done = .error e2 from by
          simp [extractGo, hsa]] at h
        exact (Except.error.injEq _ _ ▸ h).symm
      subst he
      exact headFail_aux cur s rest done e (stepApply_error_path hsa)
        (by simp [extractGo, hsa])
    | ok v =>
      rw [show extractGo cur (s :: rest) done = extractGo v rest (done ++ [s]) from by
        simp [extractGo, hsa]] at h
      obtain ⟨k, hk, v2, hpath, hok, hfail⟩ := ih v (done ++ [s]) e h
      refine ⟨k + 1, Nat.succ_lt_succ hk, v2, ?_, ?_, ?_⟩
      · rw [hpath]
        simp
      · show extractGo cur (s :: rest.take k) done = .ok v2
        simp [extractGo, hsa, hok]
      · show extractGo v2 [rest.get ⟨k, hk⟩] (done ++ (s :: rest.take k)) = .error e
        rw [show done ++ (s :: rest.take k) = (done ++ [s]) ++ rest.take k from by simp]
        exact hfail

/-- C7: whenever extraction fails, the path reported in the error equals
exactly the prefix of steps that were successfully applied before the
failing step: the path is `steps.take k` for some `k` within the pattern,
extracting that prefix succeeds (yielding the value the failing step was
applied to), and applying step `k` to that value produces the very same
error. -/
theorem c7_error_path_exact :
    ∀ (doc : Value) (steps : List Step) (e : NavError),
      extract doc steps = .error e →
      ∃ k, ∃ h : k < steps.length, ∃ v,
        e.path = steps.take k ∧
        extract doc (steps.take k) = .ok v ∧
        extractGo v [steps.get ⟨k, h⟩] (steps.take k) = .error e := by
  intro doc steps e h
  obtain ⟨k, hk, v, hpath, hok, hfail⟩ := extractGo_error_path steps doc [] e h
  exact ⟨k, hk, v, by simpa using hpath, hok, by simpa using hfail⟩

/-- Closed instance of the C7 theorem: on `{"a": [10, 20, 30]}` with
steps `a[3]`, the reported path is the successfully applied prefix
`[Field "a"]`. -/
theorem c7_error_path_exact_witness :
    extract docArr [Step.field "a", Step.index 3] =
      .error (.indexOutOfBounds 3 3 [Step.field "a"]) ∧
    ∃ k, ∃ h : k < ([Step.field "a", Step.index 3] : List Step).length, ∃ v,
      (NavError.indexOutOfBounds 3 3 [Step.field "a"]).path =
        ([Step.field "a", Step.index 3] : List Step).take k ∧
      extract docArr (([Step.field "a", Step.index 3] : List Step).take k) = .ok v ∧
      extractGo v [([Step.field "a", Step.index 3] : List Step).get ⟨k, h⟩]
        (([Step.field "a", Step.index 3] : List Step).take k) =
        .error (.indexOutOfBounds 3 3 [Step.field "a"]) :=
  ⟨rfl, c7_error_path_exact docArr [Step.field "a", Step.index 3]
    (.indexOutOfBounds 3 3 [Step.field "a"]) rfl⟩

/-- C10: when the input format is JSON but the input string is not valid
JSON, `main` reports no JSON error: the original string is passed
unchanged to the TOML parser, so the document is whatever the TOML
parser makes of the raw input. -/
theorem c10_json_fallback :
    ∀ {V E : Type} (jsonParse : String → Option V) (tomlToString : V → Except E String)
      (tomlFromStr : String → Except E Value) (s : String),
      jsonParse s = none →
      selectInput jsonParse tomlToString Format.json s = .ok s ∧
      loadDocument jsonParse tomlToString tomlFromStr Format.json s = tomlFromStr s := by
  intro V E jp ts tf s h
  constructor
  · simp [selectInput, h]
  · simp [loadDocument, selectInput, h]

/-- Closed instance of the C10 theorem: with a JSON parser that rejects
the input `x = 1`, the document loaded under JSON input format is the
result of the TOML parser on the unchanged input. -/
theorem c10_json_fallback_witness :
    (fun _ : String => (none : Option Unit)) "x = 1" = none ∧
    selectInput (fun _ : String => (none : Option Unit))
      (fun _ => (.ok "" : Except String String)) Format.json "x = 1" = .ok "x = 1" ∧
    loadDocument (fun _ : String => (none : Option Unit))
      (fun _ => (.ok "" : Except String String)) (fun _ => .ok (.int 1))
      Format.json "x = 1" = .ok (.int 1) :=
  ⟨rfl,
    (c10_json_fallback (fun _ => none) (fun _ => .ok "") (fun _ => .ok (.int 1)) "x = 1" rfl).1,
    (c10_json_fallback (fun _ => none) (fun _ => .ok "") (fun _ => .ok (.int 1)) "x = 1" rfl).2⟩

end Tq
